import Mathlib

/-!
Verification of the cluster-robust inference core of the ureter-stone
reader study (src/src/bootstrap.py, src/src/gee_analysis.py, src/src/dca.py).

The Python code is embedded shallowly:
  * records are the `ClassificationRecord` dictionaries
    `{'patient_id', 'ground_truth', 'prediction'}`;
  * Python floats are modelled as rationals `ℚ` (the code only uses field
    arithmetic, comparisons, sorting and percentile interpolation);
  * `np.random` draws are modelled by an explicit stream `g : ℕ → ℕ` of raw
    `randint` outputs, consumed left to right, together with an offset into
    the stream; `np.random.seed` fixes the stream once at construction;
  * numpy calls that raise (`np.random.choice` on an empty population) are
    modelled with `Except`.
-/

namespace UreterStone

/-- `ClassificationRecord`: one row of the study data,
`{'patient_id': str, 'ground_truth': 0/1, 'prediction': 0/1}`. -/
structure Rec where
  patient_id : String
  ground_truth : Nat
  prediction : Nat
  deriving Repr, DecidableEq

/-- Grouping of a keyed list into per-key buckets, preserving first-occurrence
key order and within-key element order — the behaviour of
`defaultdict(list)` insertion in `resample_patients`,
`compute_working_correlation` and `sandwich_variance`. -/
def groupPairs {α : Type} (ps : List (String × α)) : List (String × List α) :=
  ps.foldl (fun acc p =>
    if acc.any (fun q => q.1 = p.1) then
      acc.map (fun q => if q.1 = p.1 then (q.1, q.2 ++ [p.2]) else q)
    else
      acc ++ [(p.1, [p.2])]) []

/-- The per-patient record groups built at the top of
`BootstrapAnalyzer.resample_patients` (`patient_records`). -/
def patientGroups (data : List Rec) : List (String × List Rec) :=
  groupPairs (data.map (fun r => (r.patient_id, r)))

/-- `unique_patients = list(patient_records.keys())`. -/
def uniquePatients (data : List Rec) : List String :=
  (patientGroups data).map Prod.fst

/-- All original records of patient `pid` (`patient_records[patient_id]`). -/
def patientRecordsOf (data : List Rec) (pid : String) : List Rec :=
  ((patientGroups data).lookup pid).getD []

/-- `np.random.choice(pop, size=n, replace=True)` for the legay global
generator: raises `ValueError` when the population is empty (for `size = 0`
the subsequent `randint(0, 0, ...)` call still raises `low >= high`), and
otherwise returns `n` elements indexed by the raw draw stream `g`. -/
def npChoice {α : Type} (g : Nat → Nat) (pop : List α) (n : Nat) (d : α) :
    Except String (List α) :=
  if pop.length = 0 then .error "a must be non-empty"
  else .ok ((List.range n).map (fun i => pop.getD (g i % pop.length) d))

/-- `BootstrapAnalyzer.resample_patients`: group records by patient, draw
`n_patients` ids with replacement, and concatenate every drawn patient's
full record list. -/
def resample_patients (g : Nat → Nat) (data : List Rec) :
    Except String (List Rec) :=
  let groups := patientGroups data
  let uniq := groups.map Prod.fst
  match npChoice g uniq uniq.length "" with
  | .error e => .error e
  | .ok ids => .ok (ids.foldl (fun acc pid => acc ++ ((groups.lookup pid).getD [])) [])

/-- The max-aggregation update of `aggregate_to_patient_level` when a
patient is seen again. -/
def mergeRec (a r : Rec) : Rec :=
  { a with ground_truth := max a.ground_truth r.ground_truth,
           prediction := max a.prediction r.prediction }

/-- The fresh patient-level entry created by `aggregate_to_patient_level`
when a patient is first seen. -/
def mkAggRec (r : Rec) : Rec :=
  { patient_id := r.patient_id, ground_truth := r.ground_truth,
    prediction := r.prediction }

/-- One loop step of `aggregate_to_patient_level`: update the existing
entry of `r`'s patient, or append a fresh one. -/
def aggStep (acc : List Rec) (r : Rec) : List Rec :=
  if acc.any (fun a => a.patient_id = r.patient_id) then
    acc.map (fun a => if a.patient_id = r.patient_id then mergeRec a r else a)
  else
    acc ++ [mkAggRec r]

/-- `BootstrapAnalyzer.aggregate_to_patient_level`: collapse multiple records
per patient into one via max-aggregation of `ground_truth` and `prediction`,
in `patient_agg` dictionary order (first occurrence of each patient). -/
def aggregate_to_patient_level (data : List Rec) : List Rec :=
  data.foldl aggStep []

/-- The four rate metrics returned by `BootstrapAnalyzer.calculate_metrics`. -/
structure Metrics where
  sensitivity : ℚ
  specificity : ℚ
  ppv : ℚ
  npv : ℚ
  deriving Repr, DecidableEq

/-- `tp`-count of `calculate_metrics`. -/
def countTP (data : List Rec) : Nat :=
  data.countP (fun r => r.ground_truth = 1 ∧ r.prediction = 1)

/-- `fp`-count of `calculate_metrics`. -/
def countFP (data : List Rec) : Nat :=
  data.countP (fun r => r.ground_truth = 0 ∧ r.prediction = 1)

/-- `fn`-count of `calculate_metrics`. -/
def countFN (data : List Rec) : Nat :=
  data.countP (fun r => r.ground_truth = 1 ∧ r.prediction = 0)

/-- `tn`-count of `calculate_metrics`. -/
def countTN (data : List Rec) : Nat :=
  data.countP (fun r => r.ground_truth = 0 ∧ r.prediction = 0)

/-- `BootstrapAnalyzer.calculate_metrics`: confusion counts and the four
rates, each conditional ratio defaulting to `0.0` on a zero denominator. -/
def calculate_metrics (data : List Rec) : Metrics :=
  let tp := countTP data
  let fp := countFP data
  let fn := countFN data
  let tn := countTN data
  { sensitivity := if tp + fn > 0 then (tp : ℚ) / (tp + fn) else 0
    specificity := if tn + fp > 0 then (tn : ℚ) / (tn + fp) else 0
    ppv := if tp + fp > 0 then (tp : ℚ) / (tp + fp) else 0
    npv := if tn + fn > 0 then (tn : ℚ) / (tn + fn) else 0 }

/-- `np.mean` over a sample list (the lists in play are nonempty;
on `[]` the rational `0/0 = 0` stands in for numpy's `nan`). -/
def listMean (l : List ℚ) : ℚ := l.sum / l.length

/-- Square of `np.std(l, ddof=1)`: the sample variance
`Σ (x - mean)² / (n - 1)`.  The reported standard deviation is its square
root, so it is determined by this rational value. -/
def listVarDdof1 (l : List ℚ) : ℚ :=
  (l.map (fun x => (x - listMean l) ^ 2)).sum / ((l.length : ℚ) - 1)

/-- Linear interpolation between the order statistics of the sorted list `s`
at fractional position `pos` — the interpolation scheme of `np.percentile`'s
default method. -/
def interpAt (s : List ℚ) (pos : ℚ) : ℚ :=
  let k := pos.floor.toNat
  if k + 1 < s.length then
    s.getD k 0 + (pos - (k : ℚ)) * (s.getD (k + 1) 0 - s.getD k 0)
  else
    s.getD (s.length - 1) 0

/-- `np.percentile(l, q)` with the default linear interpolation between
order statistics: sort, set `pos = q·(n-1)/100`, and interpolate between
the order statistics at `⌊pos⌋` and `⌊pos⌋ + 1`. -/
def npPercentile (l : List ℚ) (q : ℚ) : ℚ :=
  let s := List.insertionSort (· ≤ ·) l
  interpAt s (q * ((s.length : ℚ) - 1) / 100)

/-- The per-metric block produced by
`BootstrapAnalyzer.calculate_confidence_intervals` (the standard deviation
is carried as its square `var_ddof1`). -/
structure MetricResult where
  mean : ℚ
  var_ddof1 : ℚ
  ci_lower : ℚ
  ci_upper : ℚ
  samples : List ℚ
  deriving Repr, DecidableEq

/-- The body of `calculate_confidence_intervals` for one metric:
mean, std (as variance), and the `(α/2, 1-α/2)` percentile bounds of the
bootstrap samples, with `α = 1 - confidence_level`. -/
def summarizeSamples (confidence_level : ℚ) (samples : List ℚ) : MetricResult :=
  let alpha := 1 - confidence_level
  { mean := listMean samples
    var_ddof1 := listVarDdof1 samples
    ci_lower := npPercentile samples (alpha / 2 * 100)
    ci_upper := npPercentile samples ((1 - alpha / 2) * 100)
    samples := samples }

/-- The result of `BootstrapAnalyzer.run_bootstrap` for one mode: one
`MetricResult` per rate metric. -/
structure BootstrapResult where
  sensitivity : MetricResult
  specificity : MetricResult
  ppv : MetricResult
  npv : MetricResult
  deriving Repr, DecidableEq

/-- `BootstrapAnalyzer.bootstrap_single_iteration`: resample at the patient
level, aggregate to patient level, compute the four metrics.  Consumes
`n_patients` raw draws from the stream, advancing the offset. -/
def bootstrap_single_iteration (g : Nat → Nat) (off : Nat) (data : List Rec) :
    Except String (Metrics × Nat) :=
  match resample_patients (fun i => g (off + i)) data with
  | .error e => .error e
  | .ok resampled =>
      .ok (calculate_metrics (aggregate_to_patient_level resampled),
           off + (patientGroups data).length)

/-- The iteration loop of `BootstrapAnalyzer.run_bootstrap`: `n` calls to
`bootstrap_single_iteration`, all reading the single stream `g` in order. -/
def bootstrapSampleList (g : Nat → Nat) (off : Nat) (n : Nat) (data : List Rec) :
    Except String (List Metrics × Nat) :=
  match n with
  | 0 => .ok ([], off)
  | m + 1 =>
    match bootstrap_single_iteration g off data with
    | .error e => .error e
    | .ok (met, off2) =>
      match bootstrapSampleList g off2 m data with
      | .error e => .error e
      | .ok (rest, off3) => .ok (met :: rest, off3)

/-- `BootstrapAnalyzer.run_bootstrap`: run the iteration loop and summarise
each metric's sample list with `calculate_confidence_intervals`. -/
def run_bootstrap (g : Nat → Nat) (off : Nat) (n_iterations : Nat)
    (confidence_level : ℚ) (data : List Rec) :
    Except String (BootstrapResult × Nat) :=
  match bootstrapSampleList g off n_iterations data with
  | .error e => .error e
  | .ok (mets, off2) =>
      .ok ({ sensitivity := summarizeSamples confidence_level (mets.map (·.sensitivity))
             specificity := summarizeSamples confidence_level (mets.map (·.specificity))
             ppv := summarizeSamples confidence_level (mets.map (·.ppv))
             npv := summarizeSamples confidence_level (mets.map (·.npv)) }, off2)

/-- One metric's block of `BootstrapAnalyzer.calculate_delta`. -/
structure DeltaMetricResult where
  mean : ℚ
  var_ddof1 : ℚ
  ci_lower : ℚ
  ci_upper : ℚ
  p_value_approx : ℚ
  significant : Bool
  samples : List ℚ
  deriving Repr, DecidableEq

/-- The loop body of `BootstrapAnalyzer.calculate_delta` for one metric:
elementwise difference of the two sample arrays, its mean/std/percentile CI,
the one-sided approximate p-value, and the CI-excludes-zero flag. -/
def deltaMetric (confidence_level : ℚ) (assisted unaided : List ℚ) :
    DeltaMetricResult :=
  let delta_samples := List.zipWith (fun a u => a - u) assisted unaided
  let mean_delta := listMean delta_samples
  let alpha := 1 - confidence_level
  let lo := npPercentile delta_samples (alpha / 2 * 100)
  let hi := npPercentile delta_samples ((1 - alpha / 2) * 100)
  let p :=
    if mean_delta > 0 then
      ((delta_samples.countP (fun d => d ≤ 0)) : ℚ) / delta_samples.length
    else
      ((delta_samples.countP (fun d => 0 ≤ d)) : ℚ) / delta_samples.length
  { mean := mean_delta
    var_ddof1 := listVarDdof1 delta_samples
    ci_lower := lo
    ci_upper := hi
    p_value_approx := p
    significant := decide (lo > 0 ∨ hi < 0)
    samples := delta_samples }

/-- The delta block of `run_comparison`. -/
structure DeltaResult where
  sensitivity : DeltaMetricResult
  specificity : DeltaMetricResult
  ppv : DeltaMetricResult
  npv : DeltaMetricResult
  deriving Repr, DecidableEq

/-- `BootstrapAnalyzer.calculate_delta`: the per-metric delta blocks for the
four rate metrics, pairing the i-th assisted sample with the i-th unaided
sample. -/
def calculate_delta (confidence_level : ℚ)
    (results_assisted results_unaided : BootstrapResult) : DeltaResult :=
  { sensitivity := deltaMetric confidence_level
      results_assisted.sensitivity.samples results_unaided.sensitivity.samples
    specificity := deltaMetric confidence_level
      results_assisted.specificity.samples results_unaided.specificity.samples
    ppv := deltaMetric confidence_level
      results_assisted.ppv.samples results_unaided.ppv.samples
    npv := deltaMetric confidence_level
      results_assisted.npv.samples results_unaided.npv.samples }

/-- The `self.bootstrap_results` dictionary filled in by `run_comparison`. -/
structure ComparisonResults where
  assisted : BootstrapResult
  unaided : BootstrapResult
  delta : DeltaResult
  deriving Repr, DecidableEq

/-- The analyzer's constructor arguments
(`BootstrapAnalyzer.__init__(n_iterations, confidence_level, random_seed)`);
`np.random.seed(random_seed)` is called once here. -/
structure Analyzer where
  n_iterations : Nat
  confidence_level : ℚ
  random_seed : Nat
  deriving Repr, DecidableEq

/-- A full bootstrap run of an analyzer: seeding the global generator at
construction makes the stream `seedFn random_seed` with offset `0`, and the
run consumes that single stream. `seedFn` is the (arbitrary but fixed)
seeding function of the underlying pseudorandom generator. -/
def runAnalyzerBootstrap (seedFn : Nat → Nat → Nat) (a : Analyzer)
    (data : List Rec) : Except String (BootstrapResult × Nat) :=
  run_bootstrap (seedFn a.random_seed) 0 a.n_iterations a.confidence_level data

/-- One row of `BootstrapAnalyzer.create_summary_table` (the formatted
`CI_95%` string column is presentation only and not modelled). -/
structure SummaryRow where
  mode : String
  metric : String
  mean : ℚ
  var_ddof1 : ℚ
  ci_lower : ℚ
  ci_upper : ℚ
  deriving Repr, DecidableEq

/-- The rows of the summary table built from one mode's result. -/
def modeRows (mode : String) (r : BootstrapResult) : List SummaryRow :=
  [ { mode := mode, metric := "SENSITIVITY", mean := r.sensitivity.mean,
      var_ddof1 := r.sensitivity.var_ddof1, ci_lower := r.sensitivity.ci_lower,
      ci_upper := r.sensitivity.ci_upper },
    { mode := mode, metric := "SPECIFICITY", mean := r.specificity.mean,
      var_ddof1 := r.specificity.var_ddof1, ci_lower := r.specificity.ci_lower,
      ci_upper := r.specificity.ci_upper },
    { mode := mode, metric := "PPV", mean := r.ppv.mean,
      var_ddof1 := r.ppv.var_ddof1, ci_lower := r.ppv.ci_lower,
      ci_upper := r.ppv.ci_upper },
    { mode := mode, metric := "NPV", mean := r.npv.mean,
      var_ddof1 := r.npv.var_ddof1, ci_lower := r.npv.ci_lower,
      ci_upper := r.npv.ci_upper } ]

/-- The delta rows of the summary table. -/
def deltaRows (d : DeltaResult) : List SummaryRow :=
  [ { mode := "Delta (A-U)", metric := "SENSITIVITY", mean := d.sensitivity.mean,
      var_ddof1 := d.sensitivity.var_ddof1, ci_lower := d.sensitivity.ci_lower,
      ci_upper := d.sensitivity.ci_upper },
    { mode := "Delta (A-U)", metric := "SPECIFICITY", mean := d.specificity.mean,
      var_ddof1 := d.specificity.var_ddof1, ci_lower := d.specificity.ci_lower,
      ci_upper := d.specificity.ci_upper },
    { mode := "Delta (A-U)", metric := "PPV", mean := d.ppv.mean,
      var_ddof1 := d.ppv.var_ddof1, ci_lower := d.ppv.ci_lower,
      ci_upper := d.ppv.ci_upper },
    { mode := "Delta (A-U)", metric := "NPV", mean := d.npv.mean,
      var_ddof1 := d.npv.var_ddof1, ci_lower := d.npv.ci_lower,
      ci_upper := d.npv.ci_upper } ]

/-- `BootstrapAnalyzer.create_summary_table`: when `self.bootstrap_results`
is still empty (`run_comparison` not yet called) the method logs a warning
and returns the empty list; it raises no exception.  The `Except` codomain
records that any raised exception would appear as `.error`. -/
def create_summary_table (bootstrap_results : Option ComparisonResults) :
    Except String (List SummaryRow) :=
  match bootstrap_results with
  | none => .ok []
  | some res =>
      .ok (modeRows "Unaided" res.unaided ++ modeRows "Assisted" res.assisted ++
           deltaRows res.delta)

/-- `BootstrapAnalyzer.export_results`: when `self.bootstrap_results` is
still empty the method logs a warning and returns the empty dictionary of
saved files; otherwise it writes and returns the three artifacts.  File
contents are I/O and not modelled; only the guard behaviour is. -/
def export_results (bootstrap_results : Option ComparisonResults) :
    Except String (List String) :=
  match bootstrap_results with
  | none => .ok []
  | some _ => .ok ["json", "csv", "markdown"]

/-- The double loop of `compute_working_correlation`: all products
`r[i] * r[j]` with `i < j` over one cluster's residual list, in loop
order. -/
def pairProducts : List ℚ → List ℚ
  | [] => []
  | x :: xs => xs.map (fun z => x * z) ++ pairProducts xs

/-- `GEEAnalyzer.compute_working_correlation` for the exchangeable
structure: residuals `y - mu`, grouped by cluster id; all within-cluster
pairwise residual products (clusters of size `< 2` are skipped); `0.0` when
no pair exists, otherwise the mean of the products clipped to
`[-0.99, 0.99]`. -/
def compute_working_correlation (y mu : List ℚ) (cluster_ids : List String) : ℚ :=
  let residuals := List.zipWith (fun a b => a - b) y mu
  let groups := groupPairs (List.zip cluster_ids residuals)
  let correlations := groups.foldl
    (fun acc grp => if grp.2.length < 2 then acc else acc ++ pairProducts grp.2) []
  if correlations.length = 0 then 0
  else max (-(99 / 100 : ℚ)) (min (99 / 100 : ℚ) (listMean correlations))

/-- `DecisionCurveAnalyzer.calculate_net_benefit`:
`TP/N - (FP/N)·(t/(1-t))`, with `0.0` for an empty matrix and a harm-benefit
ratio of `0.0` guarded at `t ≥ 1`. -/
def calculate_net_benefit (tp fp fn tn : Nat) (threshold : ℚ) : ℚ :=
  let n := tp + fp + fn + tn
  if n = 0 then 0
  else
    let tp_rate := (tp : ℚ) / n
    let fp_rate := (fp : ℚ) / n
    let harm_benefit_ratio := if threshold < 1 then threshold / (1 - threshold) else 0
    tp_rate - fp_rate * harm_benefit_ratio

/-- All records of patient `p` in their original order (the spec's "all of
that patient's original records"). -/
def recordsOfPatient (data : List Rec) (p : String) : List Rec :=
  data.filter (fun r => r.patient_id = p)

/-- Maximum `ground_truth` over patient `p`'s records (the spec's logical-OR
collapse; `0` on no records). -/
def gtMax (data : List Rec) (p : String) : Nat :=
  ((recordsOfPatient data p).map (·.ground_truth)).foldl max 0

/-- Maximum `prediction` over patient `p`'s records. -/
def predMax (data : List Rec) (p : String) : Nat :=
  ((recordsOfPatient data p).map (·.prediction)).foldl max 0

/-- The folding of one patient's record stream into its aggregated entry,
used to characterise `aggregate_to_patient_level`'s per-key accumulation. -/
def combineAgg (o : Option Rec) (rs : List Rec) : Option Rec :=
  rs.foldl (fun o r =>
    some (match o with
          | none => mkAggRec r
          | some a => mergeRec a r)) o

/-- Spec-side rendering (for C6) of "the mean of all pairwise residual
products across all clusters with ≥ 2 members": the concatenation, over the
clusters of size at least two, of all within-cluster pairwise residual
products. -/
def specClusterPairProducts (y mu : List ℚ) (cluster_ids : List String) : List ℚ :=
  (((groupPairs (List.zip cluster_ids (List.zipWith (fun a b => a - b) y mu))).filter
      (fun grp => 2 ≤ grp.2.length)).map (fun grp => pairProducts grp.2)).flatten

/-- Spec-side rendering (for C2) of the delta-block contract: delta samples
are the elementwise assisted-minus-unaided differences, the CI bounds are
the `(α/2, 1-α/2)` percentiles of the delta samples, `significant` holds
exactly when that CI excludes zero, and the approximate one-sided p-value is
the proportion of delta samples on the unfavourable side of zero. -/
def deltaSpecHolds (confidence_level : ℚ) (d : DeltaMetricResult)
    (assisted unaided : List ℚ) : Prop :=
  d.samples.length = assisted.length ∧
  (∀ i (h : i < d.samples.length) (ha : i < assisted.length)
      (hu : i < unaided.length),
      d.samples.get ⟨i, h⟩ = assisted.get ⟨i, ha⟩ - unaided.get ⟨i, hu⟩) ∧
  d.ci_lower = npPercentile d.samples ((1 - confidence_level) / 2 * 100) ∧
  d.ci_upper = npPercentile d.samples ((1 - (1 - confidence_level) / 2) * 100) ∧
  (d.significant = true ↔ (0 < d.ci_lower ∨ d.ci_upper < 0)) ∧
  d.p_value_approx =
    (if 0 < listMean d.samples then
      (((d.samples.filter (fun x => x ≤ 0)).length : ℚ) / d.samples.length)
     else
      (((d.samples.filter (fun x => 0 ≤ x)).length : ℚ) / d.samples.length))

/-- A concrete metric block used by the C2 witness. -/
def witnessMetricResult (s : List ℚ) : MetricResult :=
  { mean := listMean s, var_ddof1 := listVarDdof1 s,
    ci_lower := npPercentile s (5/2), ci_upper := npPercentile s (195/2),
    samples := s }

/-- A concrete assisted-mode bootstrap result used by the C2 witness. -/
def witnessAssisted : BootstrapResult :=
  { sensitivity := witnessMetricResult [1, 1/2]
    specificity := witnessMetricResult [1/2, 1/2]
    ppv := witnessMetricResult [1, 0]
    npv := witnessMetricResult [0, 1] }

/-- A concrete unaided-mode bootstrap result used by the C2 witness. -/
def witnessUnaided : BootstrapResult :=
  { sensitivity := witnessMetricResult [1/2, 1/2]
    specificity := witnessMetricResult [0, 1]
    ppv := witnessMetricResult [1/2, 1]
    npv := witnessMetricResult [1, 0] }

/-- A small concrete data set used by the witness theorems. -/
def sampleData : List Rec :=
  [⟨"P1", 1, 1⟩, ⟨"P1", 0, 1⟩, ⟨"P2", 0, 0⟩, ⟨"P3", 1, 0⟩]

/-- A concrete single-patient data set used by the witness theorems. -/
def singlePatientData : List Rec :=
  [⟨"P1", 1, 1⟩, ⟨"P1", 0, 1⟩, ⟨"P1", 0, 0⟩]

/-! ## Theorems -/

/-- C5: `calculate_metrics` returns exactly `0` for any metric whose
denominator is zero — sensitivity on `TP+FN = 0`, specificity on `TN+FP = 0`,
PPV on `TP+FP = 0`, NPV on `TN+FN = 0` — and otherwise the corresponding
ratio of confusion counts derived from the records. -/
theorem calculate_metrics_zero_denominator (data : List Rec) :
    ((countTP data + countFN data = 0 → (calculate_metrics data).sensitivity = 0) ∧
     (0 < countTP data + countFN data →
       (calculate_metrics data).sensitivity =
         (countTP data : ℚ) / (countTP data + countFN data))) ∧
    ((countTN data + countFP data = 0 → (calculate_metrics data).specificity = 0) ∧
     (0 < countTN data + countFP data →
       (calculate_metrics data).specificity =
         (countTN data : ℚ) / (countTN data + countFP data))) ∧
    ((countTP data + countFP data = 0 → (calculate_metrics data).ppv = 0) ∧
     (0 < countTP data + countFP data →
       (calculate_metrics data).ppv =
         (countTP data : ℚ) / (countTP data + countFP data))) ∧
    ((countTN data + countFN data = 0 → (calculate_metrics data).npv = 0) ∧
     (0 < countTN data + countFN data →
       (calculate_metrics data).npv =
         (countTN data : ℚ) / (countTN data + countFN data))) := by
  refine ⟨⟨?_, ?_⟩, ⟨?_, ?_⟩, ⟨?_, ?_⟩, ⟨?_, ?_⟩⟩ <;> intro h <;>
    simp [calculate_metrics, h, Nat.pos_iff_ne_zero]

/-- C5 witness: on the empty record list every denominator is zero and all
four metrics are `0`; on `sampleData` (aggregated or not) sensitivity is the
ratio `TP/(TP+FN)`. -/
theorem calculate_metrics_zero_denominator_witness :
    (countTP [] + countFN [] = 0 ∧ (calculate_metrics []).sensitivity = 0) ∧
    (0 < countTP sampleData + countFN sampleData ∧
      (calculate_metrics sampleData).sensitivity =
        (countTP sampleData : ℚ) / (countTP sampleData + countFN sampleData)) :=
  ⟨⟨by decide, (calculate_metrics_zero_denominator []).1.1 (by decide)⟩,
   ⟨by decide, (calculate_metrics_zero_denominator sampleData).1.2 (by decide)⟩⟩

/-- C7: for a non-empty confusion matrix and a threshold strictly inside
`(0, 1)`, `calculate_net_benefit` returns `TP/N − (FP/N)·(t/(1−t))`; at the
matrix `{TP:90, FP:10, FN:10, TN:90}` and `t = 0.10` the value is
`90/200 − (10/200)·((1/10)/(9/10)) = 4/9 ≈ 0.4444`. -/
theorem calculate_net_benefit_spec (tp fp fn tn : Nat) (t : ℚ)
    (hn : 0 < tp + fp + fn + tn) (ht0 : 0 < t) (ht1 : t < 1) :
    calculate_net_benefit tp fp fn tn t =
      (tp : ℚ) / (tp + fp + fn + tn) -
        ((fp : ℚ) / (tp + fp + fn + tn)) * (t / (1 - t)) ∧
    calculate_net_benefit 90 10 10 90 (1/10) =
      (90 : ℚ) / 200 - ((10 : ℚ) / 200) * ((1/10) / (1 - 1/10)) ∧
    calculate_net_benefit 90 10 10 90 (1/10) = 4/9 := by
  have h0 : tp + fp + fn + tn ≠ 0 := by omega
  refine ⟨?_, by norm_num [calculate_net_benefit], by norm_num [calculate_net_benefit]⟩
  simp [calculate_net_benefit, h0, ht1]

/-- C7 witness at the spec's end-to-end example. -/
theorem calculate_net_benefit_spec_witness :
    (0 < 90 + 10 + 10 + 90 ∧ (0 : ℚ) < 1/10 ∧ (1 : ℚ)/10 < 1) ∧
    calculate_net_benefit 90 10 10 90 (1/10) = 4/9 :=
  ⟨⟨by norm_num, by norm_num, by norm_num⟩,
   (calculate_net_benefit_spec 90 10 10 90 (1/10) (by norm_num) (by norm_num)
     (by norm_num)).2.2⟩

/-- C4 counterexample: on the empty record list (with the default
`n_iterations = 1000`, `confidence_level = 0.95`), `run_bootstrap` does not
complete: `np.random.choice` on the empty patient population raises, so the
run propagates an exception instead of returning a structurally valid
result. -/
theorem run_bootstrap_empty_input_cex :
    run_bootstrap (fun _ => 0) 0 1000 (95/100) [] =
      Except.error "a must be non-empty" := rfl

/-- C4 amended: for empty input and any positive iteration count,
`resample_patients` (and hence `run_bootstrap`) raises the numpy
`ValueError` for an empty population rather than returning; the degraded
all-zero metrics appear only in `calculate_metrics` itself, which does map
the empty record list to four exact zeros without dividing by zero. -/
theorem run_bootstrap_empty_input (g : Nat → Nat) (off n : Nat) (conf : ℚ) :
    resample_patients g [] = Except.error "a must be non-empty" ∧
    run_bootstrap g off (n + 1) conf [] = Except.error "a must be non-empty" ∧
    calculate_metrics [] = { sensitivity := 0, specificity := 0, ppv := 0, npv := 0 } :=
  ⟨rfl, rfl, rfl⟩

/-- C9 counterexample: calling `create_summary_table` or `export_results`
before `run_comparison` (empty `bootstrap_results`) raises no exception —
both calls succeed. -/
theorem summary_export_before_run_cex :
    (create_summary_table none).isOk = true ∧ (export_results none).isOk = true :=
  ⟨rfl, rfl⟩

/-- C9 amended: requesting the summary table or the export before
`run_comparison` has filled `bootstrap_results` returns silently — the
empty row list and the empty saved-file dictionary — after logging a
warning; no `PrecursorMissing` exception exists in the code. -/
theorem summary_export_before_run :
    create_summary_table none = Except.ok [] ∧
    export_results none = Except.ok [] :=
  ⟨rfl, rfl⟩

/-- C3: a bootstrap run is a deterministic function of the seed, the
iteration count, the confidence level and the input records: two analyzers
constructed with the same parameters produce identical results (hence
identical raw sample sequences, means, standard deviations and CI bounds),
and the single random stream is threaded through the iterations — iteration
`m+1` consumes the stream exactly where iteration `m` left off, with no
re-seeding. -/
theorem bootstrap_run_deterministic (seedFn : Nat → Nat → Nat)
    (a1 a2 : Analyzer) (data : List Rec)
    (hseed : a1.random_seed = a2.random_seed)
    (hiter : a1.n_iterations = a2.n_iterations)
    (hconf : a1.confidence_level = a2.confidence_level) :
    runAnalyzerBootstrap seedFn a1 data = runAnalyzerBootstrap seedFn a2 data ∧
    (∀ r1 o1 r2 o2, runAnalyzerBootstrap seedFn a1 data = .ok (r1, o1) →
        runAnalyzerBootstrap seedFn a2 data = .ok (r2, o2) →
        r1.sensitivity.samples = r2.sensitivity.samples ∧
        r1.specificity.samples = r2.specificity.samples ∧
        r1.ppv.samples = r2.ppv.samples ∧
        r1.npv.samples = r2.npv.samples) ∧
    (∀ off m,
      bootstrapSampleList (seedFn a1.random_seed) off (m + 1) data =
        match bootstrap_single_iteration (seedFn a1.random_seed) off data with
        | .error e => .error e
        | .ok (met, off2) =>
          match bootstrapSampleList (seedFn a1.random_seed) off2 m data with
          | .error e => .error e
          | .ok (rest, off3) => .ok (met :: rest, off3)) := by
  have hrun : runAnalyzerBootstrap seedFn a1 data = runAnalyzerBootstrap seedFn a2 data := by
    unfold runAnalyzerBootstrap
    rw [hseed, hiter, hconf]
  refine ⟨hrun, ?_, fun off m => rfl⟩
  intro r1 o1 r2 o2 hok1 hok2
  rw [hrun, hok2] at hok1
  cases hok1
  exact ⟨rfl, rfl, rfl, rfl⟩

/-- C3 witness: the determinism theorem applied to a concrete analyzer pair
with seed 42, two iterations and the sample data set. -/
theorem bootstrap_run_deterministic_witness :
    runAnalyzerBootstrap (fun s i => s + i) ⟨2, 95/100, 42⟩ sampleData =
      runAnalyzerBootstrap (fun s i => s + i) ⟨2, 95/100, 42⟩ sampleData :=
  (bootstrap_run_deterministic (fun s i => s + i) ⟨2, 95/100, 42⟩ ⟨2, 95/100, 42⟩
    sampleData rfl rfl rfl).1

/-- Per-metric form of the C2 contract: the block `deltaMetric` builds from
two equally long sample lists satisfies the spec-side delta contract. -/
lemma deltaMetric_spec_aux (conf : ℚ) (a u : List ℚ) (h : a.length = u.length) :
    deltaSpecHolds conf (deltaMetric conf a u) a u := by
  unfold deltaSpecHolds deltaMetric
  refine ⟨?_, ?_, rfl, rfl, ?_, ?_⟩
  · simp [List.length_zipWith, h]
  · intro i hi ha hu
    simp [List.getElem_zipWith]
  · simp [decide_eq_true_iff]
  · simp [List.countP_eq_length_filter]

/-- C2: for bootstrap results with equally long sample lists (same
`n_iterations`), `calculate_delta` pairs the i-th assisted draw with the
i-th unaided draw for each of the four metrics, flags significance exactly
when the delta's percentile CI excludes zero, and sets the approximate
one-sided p-value to the proportion of delta samples `≤ 0` when the mean
delta is positive and the proportion `≥ 0` otherwise. -/
theorem calculate_delta_spec (conf : ℚ) (ra ru : BootstrapResult)
    (h1 : ra.sensitivity.samples.length = ru.sensitivity.samples.length)
    (h2 : ra.specificity.samples.length = ru.specificity.samples.length)
    (h3 : ra.ppv.samples.length = ru.ppv.samples.length)
    (h4 : ra.npv.samples.length = ru.npv.samples.length) :
    deltaSpecHolds conf ((calculate_delta conf ra ru).sensitivity)
      ra.sensitivity.samples ru.sensitivity.samples ∧
    deltaSpecHolds conf ((calculate_delta conf ra ru).specificity)
      ra.specificity.samples ru.specificity.samples ∧
    deltaSpecHolds conf ((calculate_delta conf ra ru).ppv)
      ra.ppv.samples ru.ppv.samples ∧
    deltaSpecHolds conf ((calculate_delta conf ra ru).npv)
      ra.npv.samples ru.npv.samples :=
  ⟨deltaMetric_spec_aux conf _ _ h1, deltaMetric_spec_aux conf _ _ h2,
   deltaMetric_spec_aux conf _ _ h3, deltaMetric_spec_aux conf _ _ h4⟩

/-- C2 witness: the delta contract instantiated at a concrete pair of
two-iteration bootstrap results. -/
theorem calculate_delta_spec_witness :
    (witnessAssisted.sensitivity.samples.length =
       witnessUnaided.sensitivity.samples.length ∧
     witnessAssisted.specificity.samples.length =
       witnessUnaided.specificity.samples.length ∧
     witnessAssisted.ppv.samples.length = witnessUnaided.ppv.samples.length ∧
     witnessAssisted.npv.samples.length = witnessUnaided.npv.samples.length) ∧
    deltaSpecHolds (95/100)
      ((calculate_delta (95/100) witnessAssisted witnessUnaided).sensitivity)
      witnessAssisted.sensitivity.samples witnessUnaided.sensitivity.samples :=
  ⟨⟨rfl, rfl, rfl, rfl⟩,
   (calculate_delta_spec (95/100) witnessAssisted witnessUnaided
      rfl rfl rfl rfl).1⟩

/-- The guarded accumulation loop of `compute_working_correlation` collects
exactly the pairwise products of the clusters of size at least two. -/
lemma guarded_foldl_pairProducts (groups : List (String × List ℚ)) (acc : List ℚ) :
    groups.foldl
      (fun acc grp => if grp.2.length < 2 then acc else acc ++ pairProducts grp.2) acc =
    acc ++ ((groups.filter (fun grp => 2 ≤ grp.2.length)).map
      (fun grp => pairProducts grp.2)).flatten := by
  induction groups generalizing acc with
  | nil => simp
  | cons g gs ih =>
    by_cases h : g.2.length < 2
    · have h2 : ¬ (2 ≤ g.2.length) := by omega
      simp [h, h2, ih]
    · have h2 : 2 ≤ g.2.length := by omega
      simp [h, h2, ih, List.append_assoc]

/-- C6: with the exchangeable structure, `compute_working_correlation`
returns the mean of all within-cluster pairwise residual products over the
clusters of size ≥ 2, clamped to `[-0.99, 0.99]`; size-1 clusters contribute
no pairs, and when no within-cluster pair exists at all the returned alpha
is exactly `0`. -/
theorem compute_working_correlation_spec (y mu : List ℚ) (cluster_ids : List String) :
    (compute_working_correlation y mu cluster_ids =
      if specClusterPairProducts y mu cluster_ids = [] then 0
      else max (-(99/100 : ℚ))
             (min (99/100) (listMean (specClusterPairProducts y mu cluster_ids)))) ∧
    -(99/100 : ℚ) ≤ compute_working_correlation y mu cluster_ids ∧
    compute_working_correlation y mu cluster_ids ≤ 99/100 ∧
    ((∀ grp ∈ groupPairs
        (List.zip cluster_ids (List.zipWith (fun a b => a - b) y mu)),
        grp.2.length ≤ 1) →
      compute_working_correlation y mu cluster_ids = 0) := by
  have key : compute_working_correlation y mu cluster_ids =
      if specClusterPairProducts y mu cluster_ids = [] then 0
      else max (-(99/100 : ℚ))
             (min (99/100) (listMean (specClusterPairProducts y mu cluster_ids))) := by
    simp only [compute_working_correlation, specClusterPairProducts]
    rw [guarded_foldl_pairProducts]
    simp only [List.nil_append, List.length_eq_zero]
  refine ⟨key, ?_, ?_, ?_⟩
  · rw [key]
    split
    · norm_num
    · exact le_max_left _ _
  · rw [key]
    split
    · norm_num
    · exact max_le (by norm_num) (min_le_left _ _)
  · intro hall
    rw [key]
    have hfil : (groupPairs
        (List.zip cluster_ids (List.zipWith (fun a b => a - b) y mu))).filter
          (fun grp => 2 ≤ grp.2.length) = [] := by
      refine List.filter_eq_nil_iff.mpr ?_
      intro grp hg
      have := hall grp hg
      simp
      omega
    simp [specClusterPairProducts, hfil]

/-- C6 witness: two singleton clusters yield no within-cluster pair, so the
returned correlation is exactly `0`. -/
theorem compute_working_correlation_spec_witness :
    compute_working_correlation [1, 0] [1/2, 1/2] ["A", "B"] = 0 :=
  (compute_working_correlation_spec [1, 0] [1/2, 1/2] ["A", "B"]).2.2.2 (by decide)

/-- Accessing a sorted list at increasing indices is monotone. -/
lemma sorted_getD_mono (s : List ℚ) (hs : List.Sorted (· ≤ ·) s) {i j : ℕ}
    (hij : i ≤ j) (hj : j < s.length) : s.getD i 0 ≤ s.getD j 0 := by
  have hi : i < s.length := lt_of_le_of_lt hij hj
  rw [List.getD_eq_getElem s 0 hi, List.getD_eq_getElem s 0 hj]
  have := hs.rel_get_of_le (show (⟨i, hi⟩ : Fin s.length) ≤ ⟨j, hj⟩ from hij)
  simpa using this

/-- The floor of a nonnegative rational, through `toNat`, as a rational. -/
lemma floor_toNat_cast (p : ℚ) (h : 0 ≤ p) :
    ((p.floor.toNat : ℕ) : ℚ) = (p.floor : ℚ) := by
  have h1 : ((p.floor.toNat : ℕ) : ℤ) = p.floor :=
    Int.toNat_of_nonneg (Int.floor_nonneg.mpr h)
  exact_mod_cast congrArg (fun z : ℤ => (z : ℚ)) h1

/-- Order-statistic interpolation on a sorted list is monotone in the
fractional position. -/
lemma interpAt_mono (s : List ℚ) (hs : List.Sorted (· ≤ ·) s) (hne : s ≠ [])
    {p1 p2 : ℚ} (h0 : 0 ≤ p1) (h12 : p1 ≤ p2) (hmax : p2 ≤ (s.length : ℚ) - 1) :
    interpAt s p1 ≤ interpAt s p2 := by
  have hn1 : 1 ≤ s.length := List.length_pos.mpr hne
  have h02 : 0 ≤ p2 := le_trans h0 h12
  have hc1 : ((p1.floor.toNat : ℕ) : ℚ) = (p1.floor : ℚ) := floor_toNat_cast p1 h0
  have hc2 : ((p2.floor.toNat : ℕ) : ℚ) = (p2.floor : ℚ) := floor_toNat_cast p2 h02
  have hk1le : ((p1.floor.toNat : ℕ) : ℚ) ≤ p1 := by rw [hc1]; exact Int.floor_le p1
  have hk2le : ((p2.floor.toNat : ℕ) : ℚ) ≤ p2 := by rw [hc2]; exact Int.floor_le p2
  have hk1lt : p1 < ((p1.floor.toNat : ℕ) : ℚ) + 1 := by
    rw [hc1]; exact Int.lt_floor_add_one p1
  have hk12 : p1.floor.toNat ≤ p2.floor.toNat :=
    Int.toNat_le_toNat (Int.floor_le_floor h12)
  have hk2top : p2.floor.toNat ≤ s.length - 1 := by
    have hfl : p2.floor ≤ (s.length : ℤ) - 1 := by
      have hcast : (((s.length : ℤ) - 1 : ℤ) : ℚ) = (s.length : ℚ) - 1 := by push_cast; ring
      have := Int.floor_le_floor (le_of_le_of_eq hmax hcast.symm)
      rwa [Int.floor_intCast] at this
    omega
  unfold interpAt
  set k1 := p1.floor.toNat with hk1def
  set k2 := p2.floor.toNat with hk2def
  have hdiff : ∀ k, k + 1 < s.length → s.getD k 0 ≤ s.getD (k + 1) 0 :=
    fun k hk => sorted_getD_mono s hs (Nat.le_succ k) hk
  rcases eq_or_lt_of_le hk12 with heq | hlt
  · rw [heq]
    by_cases hb : k2 + 1 < s.length
    · simp only [if_pos hb]
      have hD := hdiff k2 hb
      have hfr : p1 - (k2 : ℚ) ≤ p2 - (k2 : ℚ) := by linarith
      have := mul_le_mul_of_nonneg_right hfr (by linarith : (0:ℚ) ≤ s.getD (k2+1) 0 - s.getD k2 0)
      linarith
    · simp only [if_neg hb]
      exact le_refl _
  · have hb1 : k1 + 1 < s.length := by omega
    simp only [if_pos hb1]
    have hD1 := hdiff k1 hb1
    have up1 : s.getD k1 0 + (p1 - (k1 : ℚ)) * (s.getD (k1+1) 0 - s.getD k1 0) ≤
        s.getD (k1+1) 0 := by
      have hprod : (p1 - (k1 : ℚ)) * (s.getD (k1+1) 0 - s.getD k1 0) ≤
          s.getD (k1+1) 0 - s.getD k1 0 :=
        mul_le_of_le_one_left (by linarith) (by linarith)
      linarith
    have mid : s.getD (k1 + 1) 0 ≤ s.getD k2 0 :=
      sorted_getD_mono s hs (by omega) (by omega)
    by_cases hb2 : k2 + 1 < s.length
    · simp only [if_pos hb2]
      have hprod2 : (0:ℚ) ≤ (p2 - (k2 : ℚ)) * (s.getD (k2+1) 0 - s.getD k2 0) :=
        mul_nonneg (by linarith) (by linarith [hdiff k2 hb2])
      linarith
    · simp only [if_neg hb2]
      have : s.getD k2 0 ≤ s.getD (s.length - 1) 0 :=
        sorted_getD_mono s hs hk2top (by omega)
      linarith

/-- `np.percentile` is monotone in the requested percentile `q ∈ [0, 100]`
on a fixed non-empty sample list. -/
lemma npPercentile_mono (l : List ℚ) (hne : l ≠ []) {q1 q2 : ℚ}
    (h0 : 0 ≤ q1) (h12 : q1 ≤ q2) (h100 : q2 ≤ 100) :
    npPercentile l q1 ≤ npPercentile l q2 := by
  have hsort : List.Sorted (· ≤ ·) (List.insertionSort (· ≤ ·) l) :=
    List.sorted_insertionSort _ l
  have hlen : (List.insertionSort (· ≤ ·) l).length = l.length :=
    (List.perm_insertionSort _ l).length_eq
  have hsne : List.insertionSort (· ≤ ·) l ≠ [] := by
    intro h
    apply hne
    have := congrArg List.length h
    rw [hlen] at this
    exact List.length_eq_zero.mp this
  unfold npPercentile
  set s := List.insertionSort (· ≤ ·) l
  have hn1 : 1 ≤ s.length := List.length_pos.mpr hsne
  have hfac : (0:ℚ) ≤ (s.length : ℚ) - 1 := by
    have : (1:ℚ) ≤ (s.length : ℚ) := by exact_mod_cast hn1
    linarith
  apply interpAt_mono s hsort hsne
  · exact div_nonneg (mul_nonneg h0 hfac) (by norm_num)
  · apply div_le_div_of_nonneg_right ?_ (by norm_num)
    exact mul_le_mul_of_nonneg_right h12 hfac
  · rw [div_le_iff₀ (by norm_num : (0:ℚ) < 100)]
    nlinarith

/-- C8: for every sample list (of a metric or of a delta) the percentile
confidence bounds computed with `α = 1 - confidence_level` satisfy
`ci_lower ≤ ci_upper`, both for `calculate_confidence_intervals` and for
the delta blocks of `calculate_delta`. -/
theorem confidence_interval_ordering (conf : ℚ) (samples : List ℚ)
    (hne : samples ≠ []) (h0 : 0 ≤ conf) (h1 : conf ≤ 1) :
    (summarizeSamples conf samples).ci_lower ≤
      (summarizeSamples conf samples).ci_upper ∧
    ∀ a u : List ℚ, List.zipWith (fun x y => x - y) a u ≠ [] →
      (deltaMetric conf a u).ci_lower ≤ (deltaMetric conf a u).ci_upper := by
  have key : ∀ t : List ℚ, t ≠ [] →
      npPercentile t ((1 - conf) / 2 * 100) ≤
        npPercentile t ((1 - (1 - conf) / 2) * 100) := by
    intro t ht
    apply npPercentile_mono t ht <;> linarith
  constructor
  · simpa [summarizeSamples] using key samples hne
  · intro a u hz
    simpa [deltaMetric] using key _ hz

/-- C8 witness: concrete three-sample and two-sample lists at the default
95% confidence level. -/
theorem confidence_interval_ordering_witness :
    (([1, (1:ℚ)/2, 3/4] : List ℚ) ≠ [] ∧ (0:ℚ) ≤ 95/100 ∧ (95:ℚ)/100 ≤ 1) ∧
    (summarizeSamples (95/100) [1, 1/2, 3/4]).ci_lower ≤
      (summarizeSamples (95/100) [1, 1/2, 3/4]).ci_upper ∧
    (deltaMetric (95/100) [1, 1/2] [1/2, 1/2]).ci_lower ≤
      (deltaMetric (95/100) [1, 1/2] [1/2, 1/2]).ci_upper :=
  ⟨⟨by simp, by norm_num, by norm_num⟩,
   (confidence_interval_ordering (95/100) [1, 1/2, 3/4] (by simp) (by norm_num)
      (by norm_num)).1,
   (confidence_interval_ordering (95/100) [1, 1/2, 3/4] (by simp) (by norm_num)
      (by norm_num)).2 [1, 1/2] [1/2, 1/2] (by simp)⟩

/-- The grouping fold never shrinks its accumulator. -/
lemma groupPairs_foldl_length_le {α : Type} (ps : List (String × α))
    (acc : List (String × List α)) :
    acc.length ≤ (ps.foldl (fun acc p =>
      if acc.any (fun q => q.1 = p.1) then
        acc.map (fun q => if q.1 = p.1 then (q.1, q.2 ++ [p.2]) else q)
      else
        acc ++ [(p.1, [p.2])]) acc).length := by
  induction ps generalizing acc with
  | nil => simp
  | cons p ps ih =>
    refine le_trans ?_ (ih _)
    by_cases h : acc.any (fun q => q.1 = p.1)
    · simp [h]
    · simp [h]

/-- Grouping a non-empty keyed list yields a non-empty group list. -/
lemma groupPairs_ne_nil {α : Type} (ps : List (String × α)) (h : ps ≠ []) :
    groupPairs ps ≠ [] := by
  match ps, h with
  | p :: rest, _ =>
    intro hcontra
    have h1 := groupPairs_foldl_length_le rest [(p.1, [p.2])]
    unfold groupPairs at hcontra
    simp only [List.foldl_cons, List.any_nil, Bool.false_eq_true, if_false,
      List.nil_append] at hcontra
    rw [hcontra] at h1
    simp at h1

/-- Grouping a keyed list whose keys all equal `p` yields the single group
`(p, all values in order)`. -/
lemma groupPairs_const_key {α : Type} (p : String) (ps : List (String × α))
    (hne : ps ≠ []) (hall : ∀ q ∈ ps, q.1 = p) :
    groupPairs ps = [(p, ps.map Prod.snd)] := by
  have step : ∀ (rest : List (String × α)) (vs : List α),
      (∀ q ∈ rest, q.1 = p) →
      rest.foldl (fun acc q =>
        if acc.any (fun g => g.1 = q.1) then
          acc.map (fun g => if g.1 = q.1 then (g.1, g.2 ++ [q.2]) else g)
        else
          acc ++ [(q.1, [q.2])]) [(p, vs)] = [(p, vs ++ rest.map Prod.snd)] := by
    intro rest
    induction rest with
    | nil => intro vs _; simp
    | cons q rest ih =>
      intro vs hq
      have hqp : q.1 = p := hq q (List.mem_cons_self q rest)
      simp only [List.foldl_cons, List.any_cons, List.any_nil, hqp,
        Bool.or_false, decide_True, if_pos, List.map_cons, List.map_nil]
      rw [ih (vs ++ [q.2]) (fun r hr => hq r (List.mem_cons_of_mem q hr))]
      simp
  match ps, hne with
  | q :: rest, _ =>
    have hqp : q.1 = p := hall q (List.mem_cons_self q rest)
    unfold groupPairs
    simp only [List.foldl_cons, List.any_nil, Bool.false_eq_true, if_false,
      List.nil_append]
    rw [hqp, step rest [q.2] (fun r hr => hall r (List.mem_cons_of_mem q hr))]
    simp

/-- Folding appends of `f` over a list is the flattened map of `f`. -/
lemma foldl_append_eq_flatten {α β : Type} (f : α → List β) (ids : List α)
    (acc : List β) :
    ids.foldl (fun a x => a ++ f x) acc = acc ++ (ids.map f).flatten := by
  induction ids generalizing acc with
  | nil => simp
  | cons x ids ih => simp [ih, List.append_assoc]

/-- C1: `resample_patients` draws exactly `P` patient ids from the unique
patient list (`P` its size) and returns the concatenation of all original
records of each drawn id, so the output length is the sum of the drawn
patients' record counts; for a single-patient input the output is exactly
the input record list. -/
theorem resample_patients_spec (g : Nat → Nat) (data : List Rec)
    (hne : data ≠ []) :
    ∃ ids : List String,
      ids.length = (uniquePatients data).length ∧
      (∀ pid ∈ ids, pid ∈ uniquePatients data) ∧
      resample_patients g data = .ok ((ids.map (patientRecordsOf data)).flatten) ∧
      ((ids.map (patientRecordsOf data)).flatten).length =
        (ids.map (fun pid => (patientRecordsOf data pid).length)).sum ∧
      (∀ p, (∀ r ∈ data, r.patient_id = p) →
        resample_patients g data = .ok data) := by
  have hgne : patientGroups data ≠ [] := by
    apply groupPairs_ne_nil
    simp [hne]
  have hP : (uniquePatients data).length ≠ 0 := by
    simp [uniquePatients, List.length_eq_zero, hgne]
  refine ⟨(List.range (uniquePatients data).length).map
      (fun i => (uniquePatients data).getD (g i % (uniquePatients data).length) ""),
    ?_, ?_, ?_, ?_, ?_⟩
  · simp
  · intro pid hpid
    simp only [List.mem_map, List.mem_range] at hpid
    obtain ⟨i, _, rfl⟩ := hpid
    have hlt : g i % (uniquePatients data).length < (uniquePatients data).length :=
      Nat.mod_lt _ (Nat.pos_of_ne_zero hP)
    rw [List.getD_eq_getElem _ _ hlt]
    exact List.getElem_mem hlt
  · unfold resample_patients npChoice
    simp only [uniquePatients] at hP ⊢
    rw [if_neg hP]
    simp only [Except.ok.injEq]
    rw [foldl_append_eq_flatten]
    rfl
  · rw [List.length_flatten, List.map_map]
    rfl
  · intro p hp
    have hgrp : patientGroups data = [(p, data)] := by
      unfold patientGroups
      rw [groupPairs_const_key p _ (by simp [hne]) ?_]
      · simp [Function.comp_def]
      · intro q hq
        simp only [List.mem_map] at hq
        obtain ⟨r, hr, rfl⟩ := hq
        exact hp r hr
    unfold resample_patients npChoice
    rw [hgrp]
    simp [Nat.mod_one, List.lookup]

/-- C1 witness: on a concrete single-patient input the resampled output is
exactly that patient's record list (length 3 = the patient's record
count). -/
theorem resample_patients_spec_witness :
    singlePatientData ≠ [] ∧
    resample_patients (fun i => i + 3) singlePatientData =
      .ok singlePatientData := by
  obtain ⟨ids, -, -, -, -, hsingle⟩ :=
    resample_patients_spec (fun i => i + 3) singlePatientData
      (by simp [singlePatientData])
  exact ⟨by simp [singlePatientData], hsingle "P1" (by decide)⟩

/-- `aggStep` preserves every entry's `patient_id` and appends the new
patient's id exactly when it is unseen. -/
lemma keys_aggStep (acc : List Rec) (r : Rec) :
    (aggStep acc r).map (fun a => a.patient_id) =
      if r.patient_id ∈ acc.map (fun a => a.patient_id) then
        acc.map (fun a => a.patient_id)
      else
        acc.map (fun a => a.patient_id) ++ [r.patient_id] := by
  unfold aggStep
  by_cases h : (acc.any fun a => a.patient_id = r.patient_id) = true
  · have hmem : r.patient_id ∈ acc.map (fun a => a.patient_id) := by
      simp only [List.any_eq_true, decide_eq_true_eq] at h
      obtain ⟨a, ha, hpa⟩ := h
      exact List.mem_map.mpr ⟨a, ha, hpa⟩
    rw [if_pos h, if_pos hmem, List.map_map]
    refine List.map_congr_left ?_
    intro a _
    by_cases hpa : a.patient_id = r.patient_id <;> simp [Function.comp, hpa, mergeRec]
  · have hmem : r.patient_id ∉ acc.map (fun a => a.patient_id) := by
      intro hc
      apply h
      obtain ⟨a, ha, hpa⟩ := List.mem_map.mp hc
      exact List.any_eq_true.mpr ⟨a, ha, by simp [hpa]⟩
    rw [if_neg h, if_neg hmem]
    simp [mkAggRec]

/-- The aggregation fold keeps the patient-id column duplicate-free. -/
lemma foldl_aggStep_keys_nodup (l : List Rec) (acc : List Rec)
    (h : (acc.map (fun a => a.patient_id)).Nodup) :
    ((l.foldl aggStep acc).map (fun a => a.patient_id)).Nodup := by
  induction l generalizing acc with
  | nil => simpa using h
  | cons r l ih =>
    rw [List.foldl_cons]
    apply ih
    rw [keys_aggStep]
    split_ifs with hmem
    · exact h
    · simp [List.nodup_append, h, hmem]

/-- Membership in the aggregated patient-id column. -/
lemma foldl_aggStep_keys_mem (l : List Rec) (acc : List Rec) (p : String) :
    p ∈ (l.foldl aggStep acc).map (fun a => a.patient_id) ↔
      p ∈ acc.map (fun a => a.patient_id) ∨
        p ∈ l.map (fun r => r.patient_id) := by
  induction l generalizing acc with
  | nil => simp
  | cons r l ih =>
    rw [List.foldl_cons, ih, keys_aggStep]
    split_ifs with hmem
    · constructor
      · tauto
      · rintro (h | h)
        · tauto
        · rw [List.map_cons, List.mem_cons] at h
          rcases h with rfl | h2
          · exact Or.inl hmem
          · exact Or.inr h2
    · rw [List.mem_append]
      simp only [List.map_cons, List.mem_cons, List.mem_singleton]
      tauto

/-- Finding a key in the appended list. -/
lemma find?_append_or (l1 l2 : List Rec) (f : Rec → Bool) :
    (l1 ++ l2).find? f = (l1.find? f).or (l2.find? f) :=
  List.find?_append

/-- The update branch of `aggStep` merges `r` into the first (and only)
entry of `r`'s patient found by `find?`. -/
lemma find?_map_merge (q : String) (r : Rec) :
    ∀ (acc : List Rec) (a : Rec),
      acc.find? (fun x => x.patient_id = q) = some a →
      ((acc.map (fun x => if x.patient_id = q then mergeRec x r else x)).find?
          (fun x => x.patient_id = q)) = some (mergeRec a r) := by
  intro acc
  induction acc with
  | nil => intro a ha; simp at ha
  | cons b acc ih =>
    intro a ha
    by_cases hb : b.patient_id = q
    · rw [List.find?_cons_of_pos _ (by simp [hb])] at ha
      cases ha
      rw [List.map_cons, if_pos hb]
      exact List.find?_cons_of_pos _ (by simp [mergeRec, hb])
    · rw [List.find?_cons_of_neg _ (by simp [hb])] at ha
      rw [List.map_cons, if_neg hb]
      rw [List.find?_cons_of_neg _ (by simp [hb])]
      exact ih a ha

/-- The update branch of `aggStep` leaves other patients' `find?` results
unchanged. -/
lemma find?_map_other (q : String) (r : Rec) (p : String) (hpq : p ≠ q) :
    ∀ (acc : List Rec),
      ((acc.map (fun x => if x.patient_id = q then mergeRec x r else x)).find?
          (fun x => x.patient_id = p)) = acc.find? (fun x => x.patient_id = p) := by
  intro acc
  induction acc with
  | nil => simp
  | cons b acc ih =>
    by_cases hb : b.patient_id = p
    · have hbq : ¬ b.patient_id = q := by rw [hb]; exact hpq
      rw [List.map_cons, if_neg hbq,
        List.find?_cons_of_pos _ (by simp [hb]),
        List.find?_cons_of_pos _ (by simp [hb])]
    · rw [List.map_cons]
      by_cases hbq : b.patient_id = q
      · rw [if_pos hbq, List.find?_cons_of_neg _ (by simp [mergeRec, hb]),
          List.find?_cons_of_neg _ (by simp [hb])]
        exact ih
      · rw [if_neg hbq, List.find?_cons_of_neg _ (by simp [hb]),
          List.find?_cons_of_neg _ (by simp [hb])]
        exact ih

/-- `aggStep` and `find?` for the stepped record's own patient. -/
lemma find?_aggStep_eq (acc : List Rec) (r : Rec) :
    (aggStep acc r).find? (fun a => a.patient_id = r.patient_id) =
      some (match acc.find? (fun a => a.patient_id = r.patient_id) with
            | none => mkAggRec r
            | some a => mergeRec a r) := by
  unfold aggStep
  by_cases h : (acc.any fun a => a.patient_id = r.patient_id) = true
  · rw [if_pos h]
    simp only [List.any_eq_true, decide_eq_true_eq] at h
    obtain ⟨a, ha, hpa⟩ := h
    cases hf : acc.find? (fun x => x.patient_id = r.patient_id) with
    | none =>
      exfalso
      have hno := List.find?_eq_none.mp hf a ha
      simp [hpa] at hno
    | some b =>
      exact find?_map_merge r.patient_id r acc b hf
  · rw [if_neg h]
    have hnone : acc.find? (fun x => x.patient_id = r.patient_id) = none := by
      rw [List.find?_eq_none]
      intro x hx
      simp only [decide_eq_true_eq]
      intro hc
      exact h (List.any_eq_true.mpr ⟨x, hx, by simp [hc]⟩)
    rw [hnone, find?_append_or, hnone, Option.none_or]
    exact List.find?_cons_of_pos _ (by simp [mkAggRec])

/-- `aggStep` and `find?` for every other patient. -/
lemma find?_aggStep_ne (acc : List Rec) (r : Rec) (p : String)
    (hp : p ≠ r.patient_id) :
    (aggStep acc r).find? (fun a => a.patient_id = p) =
      acc.find? (fun a => a.patient_id = p) := by
  unfold aggStep
  by_cases h : (acc.any fun a => a.patient_id = r.patient_id) = true
  · rw [if_pos h]
    exact find?_map_other r.patient_id r p hp acc
  · rw [if_neg h, find?_append_or]
    cases hf : acc.find? (fun x => x.patient_id = p) with
    | some b => simp
    | none =>
      simp only [Option.none_or]
      exact List.find?_cons_of_neg _ (by simpa using Ne.symm hp)

/-- The aggregation fold's `find?` result is the per-patient combination of
the accumulator entry with the patient's record stream. -/
lemma foldl_aggStep_find? (l : List Rec) (acc : List Rec) (p : String) :
    (l.foldl aggStep acc).find? (fun a => a.patient_id = p) =
      combineAgg (acc.find? (fun a => a.patient_id = p))
        (l.filter (fun r => r.patient_id = p)) := by
  induction l generalizing acc with
  | nil => simp [combineAgg]
  | cons r l ih =>
    by_cases hp : r.patient_id = p
    · subst hp
      rw [List.foldl_cons, ih, find?_aggStep_eq,
        List.filter_cons_of_pos (by simp)]
      rfl
    · rw [List.foldl_cons, ih, find?_aggStep_ne acc r p (Ne.symm hp),
        List.filter_cons_of_neg (by simp [hp])]

/-- Folding a patient's records onto an existing aggregated entry takes the
running max of both label fields. -/
lemma combineAgg_some (p : String) : ∀ (rs : List Rec) (a : Rec),
    (∀ r ∈ rs, r.patient_id = p) → a.patient_id = p →
    combineAgg (some a) rs =
      some ⟨p, (rs.map (fun r => r.ground_truth)).foldl max a.ground_truth,
             (rs.map (fun r => r.prediction)).foldl max a.prediction⟩ := by
  intro rs
  induction rs with
  | nil =>
    intro a _ ha
    simp only [combineAgg, List.foldl_nil, List.map_nil, Option.some.injEq]
    rw [← ha]
  | cons r rs ih =>
    intro a hall ha
    have hstep : combineAgg (some a) (r :: rs) = combineAgg (some (mergeRec a r)) rs := rfl
    rw [hstep, ih (mergeRec a r) (fun x hx => hall x (List.mem_cons_of_mem r hx))
      (by simp [mergeRec, ha])]
    simp [mergeRec]

/-- Folding a non-empty patient record stream from scratch takes the max of
both label fields over the stream (`0` is neutral for `max` on `ℕ`). -/
lemma combineAgg_none (p : String) (rs : List Rec) (hne : rs ≠ [])
    (hall : ∀ r ∈ rs, r.patient_id = p) :
    combineAgg none rs =
      some ⟨p, (rs.map (fun r => r.ground_truth)).foldl max 0,
             (rs.map (fun r => r.prediction)).foldl max 0⟩ := by
  match rs, hne with
  | r :: rest, _ =>
    have hr : r.patient_id = p := hall r (List.mem_cons_self r rest)
    have hstep : combineAgg none (r :: rest) = combineAgg (some (mkAggRec r)) rest := rfl
    rw [hstep, combineAgg_some p rest (mkAggRec r)
      (fun x hx => hall x (List.mem_cons_of_mem r hx)) (by simp [mkAggRec, hr])]
    simp [mkAggRec]

/-- On a list whose patient ids are already distinct, the aggregation fold
is the identity (each record re-creates itself). -/
lemma foldl_aggStep_of_nodup (l : List Rec) : ∀ (acc : List Rec),
    (∀ a ∈ acc, ∀ r ∈ l, a.patient_id ≠ r.patient_id) →
    (l.map (fun a => a.patient_id)).Nodup →
    l.foldl aggStep acc = acc ++ l := by
  induction l with
  | nil => intro acc _ _; simp
  | cons r l ih =>
    intro acc hdisj hnodup
    have hany : (acc.any fun a => a.patient_id = r.patient_id) = false := by
      rw [List.any_eq_false]
      intro a ha
      simpa using hdisj a ha r (List.mem_cons_self r l)
    have hstep : aggStep acc r = acc ++ [r] := by
      unfold aggStep
      rw [if_neg (by simp [hany])]
      rfl
    have hhead : r.patient_id ∉ l.map (fun a => a.patient_id) :=
      (List.nodup_cons.mp (by simpa using hnodup)).1
    rw [List.foldl_cons, hstep, ih (acc ++ [r]) ?_ (List.nodup_cons.mp
      (by simpa using hnodup)).2]
    · simp
    · intro a ha r' hr'
      rcases List.mem_append.mp ha with h | h
      · exact hdisj a h r' (List.mem_cons_of_mem r hr')
      · rcases List.mem_singleton.mp h with rfl
        intro heq
        apply hhead
        rw [heq]
        exact List.mem_map_of_mem _ hr'

/-- In a list with distinct patient ids, `find?` on a member's id returns
that member. -/
lemma find?_of_mem_nodup (l : List Rec)
    (hn : (l.map (fun a => a.patient_id)).Nodup) (a : Rec) (ha : a ∈ l) :
    l.find? (fun x => x.patient_id = a.patient_id) = some a := by
  induction l with
  | nil => cases ha
  | cons b l ih =>
    rw [List.map_cons] at hn
    rcases List.mem_cons.mp ha with rfl | ha2
    · exact List.find?_cons_of_pos _ (by simp)
    · by_cases hb : b.patient_id = a.patient_id
      · exfalso
        apply (List.nodup_cons.mp hn).1
        rw [hb]
        exact List.mem_map_of_mem _ ha2
      · rw [List.find?_cons_of_neg _ (by simp [hb])]
        exact ih (List.nodup_cons.mp hn).2 ha2

/-- C10: `aggregate_to_patient_level` returns exactly one record per
distinct patient id of the input, with `ground_truth` and `prediction` the
maxima of those fields over the patient's records, and the operation is
idempotent. -/
theorem aggregate_to_patient_level_spec (data : List Rec) :
    ((aggregate_to_patient_level data).map (fun a => a.patient_id)).Nodup ∧
    (∀ p, p ∈ (aggregate_to_patient_level data).map (fun a => a.patient_id) ↔
        p ∈ data.map (fun r => r.patient_id)) ∧
    (∀ a ∈ aggregate_to_patient_level data,
        a.ground_truth = gtMax data a.patient_id ∧
        a.prediction = predMax data a.patient_id) ∧
    aggregate_to_patient_level (aggregate_to_patient_level data) =
      aggregate_to_patient_level data := by
  have hnodup : ((aggregate_to_patient_level data).map
      (fun a => a.patient_id)).Nodup :=
    foldl_aggStep_keys_nodup data [] (by simp)
  have hmem : ∀ p, p ∈ (aggregate_to_patient_level data).map
      (fun a => a.patient_id) ↔ p ∈ data.map (fun r => r.patient_id) := by
    intro p
    have := foldl_aggStep_keys_mem data [] p
    simpa [aggregate_to_patient_level] using this
  refine ⟨hnodup, hmem, ?_, ?_⟩
  · intro a ha
    have hfind : (aggregate_to_patient_level data).find?
        (fun x => x.patient_id = a.patient_id) = some a :=
      find?_of_mem_nodup _ hnodup a ha
    have hchar := foldl_aggStep_find? data [] a.patient_id
    have hpid : a.patient_id ∈ data.map (fun r => r.patient_id) :=
      (hmem a.patient_id).mp (List.mem_map_of_mem _ ha)
    obtain ⟨r0, hr0, hr0p⟩ := List.mem_map.mp hpid
    have hfne : data.filter (fun r => r.patient_id = a.patient_id) ≠ [] :=
      List.ne_nil_of_mem (List.mem_filter.mpr ⟨hr0, by simp [hr0p]⟩)
    have hcomb := combineAgg_none a.patient_id
      (data.filter (fun r => r.patient_id = a.patient_id)) hfne
      (fun r hr => by simpa using (List.mem_filter.mp hr).2)
    unfold aggregate_to_patient_level at hfind
    rw [foldl_aggStep_find? data [] a.patient_id, List.find?_nil, hcomb] at hfind
    have ha2 := Option.some.inj hfind
    constructor
    · rw [← ha2]
      rfl
    · rw [← ha2]
      rfl
  · have hid := foldl_aggStep_of_nodup (aggregate_to_patient_level data) []
      (fun a ha => absurd ha (List.not_mem_nil a)) hnodup
    simpa [aggregate_to_patient_level] using hid

/-- C10 witness: the characterisation applied to the concrete sample data
set (two records for patient P1 collapse into one). -/
theorem aggregate_to_patient_level_spec_witness :
    aggregate_to_patient_level (aggregate_to_patient_level sampleData) =
      aggregate_to_patient_level sampleData ∧
    ((aggregate_to_patient_level sampleData).map (fun a => a.patient_id)).Nodup :=
  ⟨(aggregate_to_patient_level_spec sampleData).2.2.2,
   (aggregate_to_patient_level_spec sampleData).1⟩

end UreterStone
